import Mathlib

set_option maxHeartbeats 1000000

/-!
Shallow embedding of `packages/react-scripts/scripts/publish.js`.

The script publishes a built web bundle to S3 under a version-scoped path.
Pure fragments (the URL normalizer `deslashUrl`, the artifact classifier,
the CLI required-option check) are embedded as Lean functions on
`String`/`List Char`.  The effectful orchestrator `publish` is embedded as a
pure function from its configuration plus an explicit environment (store
contents, build result, directory listing, per-upload success) to a record
of its observable behaviour (outcome, whether the build subprocess was
spawned, the list of issued uploads).
-/

/-- The JS regex character class `[a-z]` (ASCII lowercase). -/
def isLowerAZ (c : Char) : Bool := decide ('a' ≤ c) && decide (c ≤ 'z')

/-- List-level starts-with test; embeds the "object key begins with the
listed prefix" semantics of `s3.listObjects({ Prefix })`. -/
def isPrefixOfL : List Char → List Char → Bool
  | [], _ => true
  | _ :: _, [] => false
  | a :: as, b :: bs => a == b && isPrefixOfL as bs

/-- JS `String#endsWith`, used by the artifact classifier's filters. -/
def endsWith (s suffix : String) : Bool :=
  isPrefixOfL suffix.data.reverse s.data.reverse

/-- The lookbehind `(?<![a-z]+:)` of the deslash regex: given the reversed
prefix of the original input already scanned, a match of `[a-z]+:` ends at
the current position iff the previous characters are `':'` preceded by at
least one lowercase letter. -/
def isSchemeEnd (l : List Char) : Bool :=
  match l with
  | a :: b :: _ => a == ':' && isLowerAZ b
  | _ => false

/-- One global left-to-right pass of
`url.replace(/(?<![a-z]+:)\/\//g, '/')` (the body of `deslashUrl`).
`prev` is the reversed prefix of the original input already scanned, as the
JS lookbehind consults the original string.  When a `//` match is blocked by
the lookbehind, the regex engine advances one position; a `//` starting at
that next position is never blocked (the preceding character is `'/'`,
not `':'`), which is what the inner `match rest` cases spell out. -/
def deslashGo (prev : List Char) : List Char → List Char
  | [] => []
  | [c] => [c]
  | c :: d :: rest =>
    if c = '/' ∧ d = '/' then
      if isSchemeEnd prev = true then
        match rest with
        | [] => ['/', '/']
        | e :: r =>
          if e = '/' then
            '/' :: '/' :: deslashGo ('/' :: '/' :: '/' :: prev) r
          else
            '/' :: '/' :: deslashGo ('/' :: '/' :: prev) (e :: r)
      else '/' :: deslashGo ('/' :: '/' :: prev) rest
    else c :: deslashGo (c :: prev) (d :: rest)

/-- The normalizer `deslashUrl(url)`: removes double slashes within a url,
except after the protocol. -/
def deslashUrl (url : String) : String := String.mk (deslashGo [] url.data)

/-- Does the character list contain two adjacent `'/'`? -/
def hasAdjSlash : List Char → Bool
  | c :: d :: rest => (c == '/' && d == '/') || hasAdjSlash (d :: rest)
  | _ => false

/-- No run of three consecutive `'/'` characters. -/
def noTripleSlash : List Char → Bool
  | c :: d :: e :: rest => !(c == '/' && d == '/' && e == '/') && noTripleSlash (d :: e :: rest)
  | _ => true

/-- No URI scheme token: no lowercase letter immediately followed by `':'`. -/
def noSchemeToken : List Char → Bool
  | c :: d :: rest => !(isLowerAZ c && d == ':') && noSchemeToken (d :: rest)
  | _ => true

/-- The script half of the artifact classifier (publish.js lines 106-108):
files ending in `.js` (or, with source maps enabled, `.js.map`), with the
reserved `service-worker.js` removed. -/
def classifyJs (files : List String) (sourceMaps : Bool) : List String :=
  (files.filter
      (fun f => endsWith f ".js" || (sourceMaps && endsWith f ".js.map"))).filter
    (fun f => !(f == "service-worker.js"))

/-- The stylesheet half of the artifact classifier (publish.js lines 109-111). -/
def classifyCss (files : List String) (sourceMaps : Bool) : List String :=
  files.filter
    (fun f => endsWith f ".css" || (sourceMaps && endsWith f ".css.map"))

/-- The path cleanup `localPath.replace(/\/$/, '')`: strip one trailing
slash, if any. -/
def stripTrailingSlash (s : String) : String :=
  if s.data.getLast? = some '/' then String.mk s.data.dropLast else s

/-- The check `pathExists(bucket, path)`: `s3.listObjects({ Prefix: path })` returns the
stored keys that begin with `path` (prefix-listing semantics of the object
store, spec section 4.3); the function reports whether that list is
non-empty.  The store is modelled as the list of object keys in the target
bucket. -/
def pathExists (storeKeys : List String) (path : String) : Bool :=
  (storeKeys.filter (fun k => isPrefixOfL path.data k.data)).length > 0

/-- One `putObject` request: destination bucket and key, source file,
content type. -/
structure UploadTask where
  bucket : String
  key : String
  file : String
  contentType : String
deriving DecidableEq

/-- The configuration `publish` destructures, with the version already
resolved (`appVersion || require(appRoot + '/package.json').version`). -/
structure Config where
  s3Bucket : String
  s3Path : String
  localPath : String
  version : String
  publicUrlBase : String
  force : Bool
  sourceMaps : Bool

/-- The environment a run observes: the object keys currently in the target
bucket, whether the spawned build exits with code 0, the directory listing
of the local path (`none` models a throwing `fs.readdirSync`), and which
upload keys succeed. -/
structure Env where
  storeKeys : List String
  buildOk : Bool
  dirListing : Option (List String)
  uploadOk : String → Bool

/-- How a run terminates: `process.exit` with a code, a crash through the
`unhandledRejection` handler (build failure or a failed upload; Node then
terminates non-zero), or successful completion reporting the main-script
URL. -/
inductive Outcome where
  | exited : Nat → Outcome
  | crashed : Outcome
  | completed : String → Outcome
deriving DecidableEq

/-- The observable behaviour of one run of `publish`. -/
structure RunResult where
  outcome : Outcome
  buildInvoked : Bool
  uploads : List UploadTask
deriving DecidableEq

/-- The upload fan-out (publish.js lines 123-137): one task per classified
script (content type `application/javascript`, via `uploadJsFileToS3`)
followed by one per classified stylesheet (content type `text/css`, via
`uploadCssFileToS3`). -/
def uploadTasks (cfg : Config) (files : List String) : List UploadTask :=
  let versionS3Path := cfg.s3Path ++ "/" ++ cfg.version
  let localPath := stripTrailingSlash cfg.localPath
  (classifyJs files cfg.sourceMaps).map (fun f =>
    { bucket := cfg.s3Bucket, key := versionS3Path ++ "/" ++ f,
      file := localPath ++ "/" ++ f, contentType := "application/javascript" })
  ++ (classifyCss files cfg.sourceMaps).map (fun f =>
    { bucket := cfg.s3Bucket, key := versionS3Path ++ "/" ++ f,
      file := localPath ++ "/" ++ f, contentType := "text/css" })

/-- The `publish` orchestrator (publish.js lines 64-143) as a pure function
of configuration and environment.  Stages, in source order: existence check
and overwrite policy, build subprocess, directory read, classification,
empty-script guard, concurrent uploads, final URL report. -/
def publish (cfg : Config) (env : Env) : RunResult :=
  let versionS3Path := cfg.s3Path ++ "/" ++ cfg.version
  if pathExists env.storeKeys versionS3Path && !cfg.force then
    { outcome := Outcome.exited 1, buildInvoked := false, uploads := [] }
  else if !env.buildOk then
    { outcome := Outcome.crashed, buildInvoked := true, uploads := [] }
  else
    match env.dirListing with
    | none => { outcome := Outcome.exited 1, buildInvoked := true, uploads := [] }
    | some files =>
      if (classifyJs files cfg.sourceMaps).length = 0 then
        { outcome := Outcome.exited 1, buildInvoked := true, uploads := [] }
      else
        let tasks := uploadTasks cfg files
        if tasks.all (fun t => env.uploadOk t.key) then
          { outcome := Outcome.completed
              (deslashUrl (cfg.publicUrlBase ++ "/" ++ versionS3Path ++ "/main.js")),
            buildInvoked := true, uploads := tasks }
        else
          { outcome := Outcome.crashed, buildInvoked := true, uploads := tasks }

/-- The option record gathered by the commander front end; a `none` field is
an option the invocation did not supply (`typeof program[opt] ===
'undefined'`). -/
structure RawOptions where
  s3Bucket : Option String
  s3Path : Option String
  localPath : Option String
  appVersion : Option String
  publicUrlBase : Option String
  sourceMaps : Bool
  force : Bool

/-- The list `const required = ['s3Bucket', 's3Path', 'localPath']`
(publish.js line 172). -/
def requiredOptionNames : List String := ["s3Bucket", "s3Path", "localPath"]

/-- The lookup `program[opt]` for the option names the required-check loop
consults. -/
def getOption (o : RawOptions) : String → Option String
  | "s3Bucket" => o.s3Bucket
  | "s3Path" => o.s3Path
  | "localPath" => o.localPath
  | "appVersion" => o.appVersion
  | "publicUrlBase" => o.publicUrlBase
  | _ => none

/-- The validation loop at publish.js lines 173-178: the process exits with
status 1 iff some name in the `required` list is undefined. -/
def missingRequired (o : RawOptions) : Bool :=
  requiredOptionNames.any (fun n => (getOption o n).isNone)

/-! ### Concrete configurations and environments used by the witnesses -/

def cfgC1 : Config :=
  ⟨"bucket", "assets", "build", "1.0.0", "https://cdn.example", false, false⟩

def envC1 : Env :=
  ⟨["assets/1.0.0/main.js"], true, some ["app.js"], fun _ => true⟩

def cfgC2 : Config :=
  ⟨"bucket", "assets", "build", "1.0.0", "https://cdn.example", false, true⟩

def envC2 : Env :=
  ⟨[], true,
    some ["app.js", "app.js.map", "style.css", "service-worker.js", "readme.txt"],
    fun _ => true⟩

def cfgC8 : Config :=
  ⟨"bucket", "assets", "build", "1.0.0", "https://cdn.example", false, false⟩

def envC8 : Env :=
  ⟨[], true, some ["style.css"], fun _ => true⟩

def cfgC9 : Config :=
  ⟨"bucket", "assets", "build", "1.2", "https://cdn.example", false, false⟩

def envC9 : Env :=
  ⟨["assets/1.2.3/main.js"], true, some ["app.js"], fun _ => true⟩

def cfgC10 : Config :=
  ⟨"bucket", "assets", "build", "1.0.0", "https://cdn.example", false, false⟩

def envC10 : Env :=
  ⟨[], true, some ["app.js"], fun _ => true⟩

/-! ### Lemmas about the normalizer scan -/

theorem dsg_nil (p : List Char) : deslashGo p [] = [] := rfl

theorem dsg_single (p : List Char) (c : Char) : deslashGo p [c] = [c] := rfl

theorem dsg_plain (p : List Char) {c d : Char} (rest : List Char)
    (h : ¬(c = '/' ∧ d = '/')) :
    deslashGo p (c :: d :: rest) = c :: deslashGo (c :: p) (d :: rest) := by
  rw [deslashGo.eq_def]
  simp [h]

theorem dsg_free (p rest : List Char) (h : isSchemeEnd p = false) :
    deslashGo p ('/' :: '/' :: rest) = '/' :: deslashGo ('/' :: '/' :: p) rest := by
  rw [deslashGo.eq_def]
  simp [h]

theorem dsg_blocked_nil (p : List Char) (h : isSchemeEnd p = true) :
    deslashGo p ['/', '/'] = ['/', '/'] := by
  simp [deslashGo, h]

theorem dsg_blocked_plain (p : List Char) {e : Char} (r : List Char)
    (h : isSchemeEnd p = true) (he : ¬ e = '/') :
    deslashGo p ('/' :: '/' :: e :: r)
      = '/' :: '/' :: deslashGo ('/' :: '/' :: p) (e :: r) := by
  simp [deslashGo, h, he]

theorem dsg_blocked_slash (p r : List Char) (h : isSchemeEnd p = true) :
    deslashGo p ('/' :: '/' :: '/' :: r)
      = '/' :: '/' :: deslashGo ('/' :: '/' :: '/' :: p) r := by
  simp [deslashGo, h]

/-- The scan always emits the first input character first. -/
theorem dsg_head (p : List Char) (c : Char) (rest : List Char) :
    ∃ t, deslashGo p (c :: rest) = c :: t := by
  cases rest with
  | nil => exact ⟨[], rfl⟩
  | cons d r =>
    by_cases hcd : c = '/' ∧ d = '/'
    · obtain ⟨rfl, rfl⟩ := hcd
      by_cases hb : isSchemeEnd p = true
      · cases r with
        | nil => exact ⟨['/'], dsg_blocked_nil p hb⟩
        | cons e r2 =>
          by_cases he : e = '/'
          · subst he
            exact ⟨'/' :: deslashGo ('/' :: '/' :: '/' :: p) r2, dsg_blocked_slash p r2 hb⟩
          · exact ⟨'/' :: deslashGo ('/' :: '/' :: p) (e :: r2), dsg_blocked_plain p r2 hb he⟩
      · have hb' : isSchemeEnd p = false := by simpa using hb
        exact ⟨deslashGo ('/' :: '/' :: p) r, dsg_free p r hb'⟩
    · exact ⟨deslashGo (c :: p) (d :: r), dsg_plain p r hcd⟩

theorem isSchemeEnd_slash (x : List Char) : isSchemeEnd ('/' :: x) = false := by
  cases x <;> rfl

theorem isSchemeEnd_shape {p : List Char} (h : isSchemeEnd p = true) :
    ∃ b p2, p = ':' :: b :: p2 ∧ isLowerAZ b = true := by
  match p with
  | [] => simp [isSchemeEnd] at h
  | [a] => simp [isSchemeEnd] at h
  | a :: b :: p2 =>
    simp only [isSchemeEnd, Bool.and_eq_true, beq_iff_eq] at h
    exact ⟨b, p2, by rw [h.1], h.2⟩

theorem schemeEnd_cons {p q : List Char} (hpq : p.head? = q.head?) (c : Char) :
    isSchemeEnd (c :: p) = isSchemeEnd (c :: q) := by
  cases p with
  | nil =>
    cases q with
    | nil => rfl
    | cons b q2 => simp at hpq
  | cons a p2 =>
    cases q with
    | nil => simp at hpq
    | cons b q2 =>
      simp only [List.head?, Option.some.injEq] at hpq
      subst hpq
      rfl

theorem noTripleSlash_tail {c : Char} {l : List Char}
    (h : noTripleSlash (c :: l) = true) : noTripleSlash l = true := by
  cases l with
  | nil => rfl
  | cons d l2 =>
    cases l2 with
    | nil => rfl
    | cons e l3 =>
      simp only [noTripleSlash, Bool.and_eq_true] at h
      exact h.2

theorem noSchemeToken_tail {c : Char} {l : List Char}
    (h : noSchemeToken (c :: l) = true) : noSchemeToken l = true := by
  cases l with
  | nil => rfl
  | cons d l2 =>
    simp only [noSchemeToken, Bool.and_eq_true] at h
    exact h.2

theorem noSchemeToken_mid : ∀ (xs : List Char) (b : Char) (ys : List Char),
    noSchemeToken (xs ++ b :: ':' :: ys) = true → isLowerAZ b = false := by
  intro xs
  induction xs with
  | nil =>
    intro b ys h
    simp only [List.nil_append, noSchemeToken, Bool.and_eq_true,
      Bool.not_eq_true'] at h
    simpa using h.1
  | cons x xs ih =>
    intro b ys h
    rw [List.cons_append] at h
    exact ih b ys (noSchemeToken_tail h)

theorem revApp (p : List Char) (c : Char) (xs : List Char) :
    (c :: p).reverse ++ xs = p.reverse ++ (c :: xs) := by
  simp

theorem beq_pair_false {c d : Char} (h : ¬(c = '/' ∧ d = '/')) :
    (c == '/' && d == '/') = false := by
  by_cases hc : c = '/'
  · by_cases hd : d = '/'
    · exact absurd ⟨hc, hd⟩ h
    · simp [hd]
  · simp [hc]

/-- Core of the corrected normalizer property: on an input with no triple
slash, and with no scheme token anywhere in the full original string
(scanned prefix plus remaining input), one scan pass leaves no adjacent
slashes. -/
theorem ds_noAdj : ∀ (n : Nat) (l p : List Char), l.length ≤ n →
    noTripleSlash l = true → noSchemeToken (p.reverse ++ l) = true →
    hasAdjSlash (deslashGo p l) = false := by
  intro n
  induction n with
  | zero =>
    intro l p hl _ _
    have hnil : l = [] := List.length_eq_zero.mp (Nat.le_zero.mp hl)
    subst hnil
    rfl
  | succ n ih =>
    intro l p hl h3 hs
    rcases l with _ | ⟨c, _ | ⟨d, rest⟩⟩
    · rfl
    · rfl
    · by_cases hcd : c = '/' ∧ d = '/'
      · obtain ⟨rfl, rfl⟩ := hcd
        have hb : isSchemeEnd p = false := by
          cases hx : isSchemeEnd p
          · rfl
          · obtain ⟨b, p2, hp, hlow⟩ := isSchemeEnd_shape hx
            subst hp
            rw [show (':' :: b :: p2).reverse ++ ('/' :: '/' :: rest)
                = p2.reverse ++ (b :: ':' :: ('/' :: '/' :: rest)) from by simp] at hs
            have hfalse := noSchemeToken_mid p2.reverse b _ hs
            rw [hlow] at hfalse
            exact absurd hfalse (by simp)
        rw [dsg_free p rest hb]
        cases rest with
        | nil => rfl
        | cons e r =>
          have he : ¬ e = '/' := by
            intro hee
            subst hee
            simp [noTripleSlash] at h3
          obtain ⟨t, ht⟩ := dsg_head ('/' :: '/' :: p) e r
          rw [ht]
          have hrec : hasAdjSlash (e :: t) = false := by
            rw [← ht]
            apply ih (e :: r) ('/' :: '/' :: p)
            · simp only [List.length_cons] at hl ⊢
              omega
            · exact noTripleSlash_tail (noTripleSlash_tail h3)
            · rw [revApp, revApp]
              exact hs
          simp [hasAdjSlash, hrec, he]
      · obtain ⟨t, ht⟩ := dsg_head (c :: p) d rest
        rw [dsg_plain p rest hcd, ht]
        have hrec : hasAdjSlash (d :: t) = false := by
          rw [← ht]
          apply ih (d :: rest) (c :: p)
          · simp only [List.length_cons] at hl ⊢
            omega
          · exact noTripleSlash_tail h3
          · rw [revApp]
            exact hs
        simp [hasAdjSlash, hrec, beq_pair_false hcd]

/-- Core of the corrected idempotence property: rerunning the scan over the
output of a first scan reproduces it, provided the input had no triple slash
and the two scan contexts agree on their head and on the lookbehind. -/
theorem ds_idem_core : ∀ (n : Nat) (l p q : List Char), l.length ≤ n →
    noTripleSlash l = true → p.head? = q.head? →
    isSchemeEnd p = isSchemeEnd q →
    deslashGo q (deslashGo p l) = deslashGo p l := by
  intro n
  induction n with
  | zero =>
    intro l p q hl _ _ _
    have hnil : l = [] := List.length_eq_zero.mp (Nat.le_zero.mp hl)
    subst hnil
    rfl
  | succ n ih =>
    intro l p q hl h3 hpq hse
    rcases l with _ | ⟨c, _ | ⟨d, rest⟩⟩
    · rfl
    · rfl
    · by_cases hcd : c = '/' ∧ d = '/'
      · obtain ⟨rfl, rfl⟩ := hcd
        by_cases hb : isSchemeEnd p = true
        · have hqb : isSchemeEnd q = true := by rw [← hse]; exact hb
          rcases rest with _ | ⟨e, r⟩
          · rw [dsg_blocked_nil p hb, dsg_blocked_nil q hqb]
          · by_cases he : e = '/'
            · subst he
              simp [noTripleSlash] at h3
            · rw [dsg_blocked_plain p r hb he]
              obtain ⟨t, ht⟩ := dsg_head ('/' :: '/' :: p) e r
              rw [ht, dsg_blocked_plain q t hqb he]
              have hrec := ih (e :: r) ('/' :: '/' :: p) ('/' :: '/' :: q)
                (by simp only [List.length_cons] at hl ⊢; omega)
                (noTripleSlash_tail (noTripleSlash_tail h3)) rfl
                ((isSchemeEnd_slash ('/' :: p)).trans (isSchemeEnd_slash ('/' :: q)).symm)
              rw [ht] at hrec
              rw [hrec]
        · have hb' : isSchemeEnd p = false := by simpa using hb
          have hqb' : isSchemeEnd q = false := by rw [← hse]; exact hb'
          rcases rest with _ | ⟨e, r⟩
          · rw [dsg_free p [] hb', dsg_nil]
            rfl
          · by_cases he : e = '/'
            · subst he
              simp [noTripleSlash] at h3
            · rw [dsg_free p (e :: r) hb']
              obtain ⟨t, ht⟩ := dsg_head ('/' :: '/' :: p) e r
              rw [ht]
              have hne : ¬('/' = '/' ∧ e = '/') := fun hh => he hh.2
              rw [dsg_plain q t hne]
              have hrec := ih (e :: r) ('/' :: '/' :: p) ('/' :: q)
                (by simp only [List.length_cons] at hl ⊢; omega)
                (noTripleSlash_tail (noTripleSlash_tail h3)) rfl
                ((isSchemeEnd_slash ('/' :: p)).trans (isSchemeEnd_slash q).symm)
              rw [ht] at hrec
              rw [hrec]
      · obtain ⟨t, ht⟩ := dsg_head (c :: p) d rest
        rw [dsg_plain p rest hcd, ht, dsg_plain q t hcd]
        have hrec := ih (d :: rest) (c :: p) (c :: q)
          (by simp only [List.length_cons] at hl ⊢; omega)
          (noTripleSlash_tail h3) rfl (schemeEnd_cons hpq c)
        rw [ht] at hrec
        rw [hrec]

/-! ### Lemmas about the classifier and the store model -/

theorem isPrefixOfL_head {a b : Char} {as bs : List Char}
    (h : isPrefixOfL (a :: as) (b :: bs) = true) :
    a = b ∧ isPrefixOfL as bs = true := by
  simp only [isPrefixOfL, Bool.and_eq_true, beq_iff_eq] at h
  exact h

/-- A name ending in `.css` ends neither in `.js` nor in `.js.map`. -/
theorem ends_css_excludes (f : String) (h : endsWith f ".css" = true) :
    endsWith f ".js" = false ∧ endsWith f ".js.map" = false := by
  unfold endsWith at h ⊢
  have hc : (String.data ".css").reverse = ['s', 's', 'c', '.'] := rfl
  have hj : (String.data ".js").reverse = ['s', 'j', '.'] := rfl
  have hm : (String.data ".js.map").reverse = ['p', 'a', 'm', '.', 's', 'j', '.'] := rfl
  have e1 : ('j' == 's') = false := rfl
  have e2 : ('p' == 's') = false := rfl
  rw [hc] at h
  rw [hj, hm]
  rcases hr : f.data.reverse with _ | ⟨a, _ | ⟨b, r2⟩⟩
  · rw [hr] at h
    simp [isPrefixOfL] at h
  · rw [hr] at h
    simp [isPrefixOfL] at h
  · rw [hr] at h
    obtain ⟨ha, h2⟩ := isPrefixOfL_head h
    obtain ⟨hb, _⟩ := isPrefixOfL_head h2
    subst ha
    subst hb
    constructor
    · simp [isPrefixOfL, e1]
    · simp [isPrefixOfL, e2]

theorem classifyJs_eq_nil_of_all_css {files : List String} {sm : Bool}
    (h : ∀ f ∈ files, endsWith f ".css" = true) :
    classifyJs files sm = [] := by
  unfold classifyJs
  have hinner :
      files.filter (fun f => endsWith f ".js" || (sm && endsWith f ".js.map")) = [] := by
    rw [List.filter_eq_nil_iff]
    intro f hf
    obtain ⟨h1, h2⟩ := ends_css_excludes f (h f hf)
    simp [h1, h2]
  rw [hinner]
  rfl

theorem pathExists_iff (storeKeys : List String) (path : String) :
    pathExists storeKeys path = true
      ↔ ∃ k ∈ storeKeys, isPrefixOfL path.data k.data = true := by
  simp [pathExists, List.length_pos_iff_exists_mem, List.mem_filter]

/-! ### The claims -/

/-- Claim C1: whenever the existence check reports that the version path
already exists and the force-overwrite flag is not set, the build subprocess
is never spawned, no upload is issued, and the process terminates with the
non-zero exit status 1. -/
theorem claim_C1 (cfg : Config) (env : Env)
    (hex : pathExists env.storeKeys (cfg.s3Path ++ "/" ++ cfg.version) = true)
    (hf : cfg.force = false) :
    (publish cfg env).outcome = Outcome.exited 1 ∧
    (publish cfg env).buildInvoked = false ∧
    (publish cfg env).uploads = [] := by
  simp [publish, hex, hf]

/-- Witness for C1 at a concrete configuration whose version path is
already stored. -/
theorem claim_C1_witness :
    pathExists envC1.storeKeys (cfgC1.s3Path ++ "/" ++ cfgC1.version) = true ∧
    (publish cfgC1 envC1).outcome = Outcome.exited 1 ∧
    (publish cfgC1 envC1).buildInvoked = false ∧
    (publish cfgC1 envC1).uploads = [] :=
  ⟨by decide, claim_C1 cfgC1 envC1 (by decide) rfl⟩

/-- Claim C2: a run that reaches the upload stage issues exactly one upload
per classified artifact — the scripts, each with content type
`application/javascript`, followed by the stylesheets, each with content
type `text/css` — and it completes successfully only if every one of those
uploads succeeds. -/
theorem claim_C2 (cfg : Config) (env : Env) (files : List String)
    (habort : (pathExists env.storeKeys (cfg.s3Path ++ "/" ++ cfg.version)
        && !cfg.force) = false)
    (hbuild : env.buildOk = true)
    (hdir : env.dirListing = some files)
    (hjs : classifyJs files cfg.sourceMaps ≠ []) :
    (publish cfg env).uploads
      = (classifyJs files cfg.sourceMaps).map (fun f =>
          { bucket := cfg.s3Bucket,
            key := cfg.s3Path ++ "/" ++ cfg.version ++ "/" ++ f,
            file := stripTrailingSlash cfg.localPath ++ "/" ++ f,
            contentType := "application/javascript" })
        ++ (classifyCss files cfg.sourceMaps).map (fun f =>
          { bucket := cfg.s3Bucket,
            key := cfg.s3Path ++ "/" ++ cfg.version ++ "/" ++ f,
            file := stripTrailingSlash cfg.localPath ++ "/" ++ f,
            contentType := "text/css" }) ∧
    (publish cfg env).uploads.length
      = (classifyJs files cfg.sourceMaps).length
        + (classifyCss files cfg.sourceMaps).length ∧
    ((∃ url, (publish cfg env).outcome = Outcome.completed url) →
      ((publish cfg env).uploads.all (fun t => env.uploadOk t.key)) = true) := by
  have hlen : ¬((classifyJs files cfg.sourceMaps).length = 0) := by
    simpa [List.length_eq_zero] using hjs
  have huploads : (publish cfg env).uploads = uploadTasks cfg files := by
    by_cases hall : (uploadTasks cfg files).all (fun t => env.uploadOk t.key) = true
    · simp [publish, habort, hbuild, hdir, hlen, hall]
    · have hall' : (uploadTasks cfg files).all (fun t => env.uploadOk t.key) = false := by
        simpa using hall
      simp [publish, habort, hbuild, hdir, hlen, hall']
  refine ⟨?_, ?_, ?_⟩
  · rw [huploads]
    rfl
  · rw [huploads]
    simp [uploadTasks]
  · intro hurl
    rw [huploads]
    by_cases hall : (uploadTasks cfg files).all (fun t => env.uploadOk t.key) = true
    · exact hall
    · have hall' : (uploadTasks cfg files).all (fun t => env.uploadOk t.key) = false := by
        simpa using hall
      obtain ⟨url, hu⟩ := hurl
      simp [publish, habort, hbuild, hdir, hlen, hall'] at hu

/-- Witness for C2: the five-file example directory with source maps
enabled yields three uploads (two scripts, one stylesheet). -/
theorem claim_C2_witness :
    (publish cfgC2 envC2).uploads.length
      = (classifyJs ["app.js", "app.js.map", "style.css", "service-worker.js",
          "readme.txt"] cfgC2.sourceMaps).length
        + (classifyCss ["app.js", "app.js.map", "style.css", "service-worker.js",
          "readme.txt"] cfgC2.sourceMaps).length :=
  (claim_C2 cfgC2 envC2
      ["app.js", "app.js.map", "style.css", "service-worker.js", "readme.txt"]
      (by decide) rfl rfl (by decide)).2.1

/-- Counterexample to claim C3 as stated: one normalization pass over
`"///"` leaves `"//"`, which a second pass collapses further, so the
normalizer is not idempotent on all strings. -/
theorem claim_C3_counterexample :
    deslashUrl (deslashUrl "///") ≠ deslashUrl "///" := by
  decide

/-- Claim C3 (amended): the URL normalizer is idempotent on every string
that contains no run of three or more consecutive `'/'` characters. -/
theorem claim_C3 (x : String) (h : noTripleSlash x.data = true) :
    deslashUrl (deslashUrl x) = deslashUrl x :=
  congrArg String.mk (ds_idem_core x.data.length x.data [] [] le_rfl h rfl rfl)

/-- Witness for the amended C3 at a URL with a double slash in the path. -/
theorem claim_C3_witness :
    noTripleSlash (String.data "https://a//b//c") = true ∧
    deslashUrl (deslashUrl "https://a//b//c") = deslashUrl "https://a//b//c" :=
  ⟨by decide, claim_C3 "https://a//b//c" (by decide)⟩

/-- Counterexample to claim C4 as stated: `"a///b"` contains no URI scheme
token, yet its normalization `"a//b"` still contains two adjacent path
separators. -/
theorem claim_C4_counterexample :
    noSchemeToken (String.data "a///b") = true ∧
    hasAdjSlash (String.data (deslashUrl "a///b")) = true := by
  decide

/-- Claim C4 (amended): for every string with no URI scheme token (no
lowercase letter immediately followed by `':'`) and no run of three or more
consecutive separators, the normalized string has no two adjacent path
separators; and normalizing `"https://a//b//c"` gives `"https://a/b/c"`,
preserving the pair after the scheme and collapsing the later doubles. -/
theorem claim_C4 :
    (∀ S : String, noSchemeToken S.data = true → noTripleSlash S.data = true →
      hasAdjSlash (String.data (deslashUrl S)) = false) ∧
    deslashUrl "https://a//b//c" = "https://a/b/c" := by
  constructor
  · intro S hs h3
    exact ds_noAdj S.data.length S.data [] le_rfl h3 (by simpa using hs)
  · decide

/-- Witness for the amended C4 at a schemeless string with one double
separator. -/
theorem claim_C4_witness :
    noSchemeToken (String.data "a//b") = true ∧
    noTripleSlash (String.data "a//b") = true ∧
    hasAdjSlash (String.data (deslashUrl "a//b")) = false :=
  ⟨by decide, by decide, claim_C4.1 "a//b" (by decide) (by decide)⟩

/-- Claim C5: the required-option check of the CLI front end.  The
validation loop consults only `s3Bucket`, `s3Path` and `localPath`: an
invocation missing only `public-url-base` passes the check (first
conjunct), so the process does not terminate for it, while each of the
three listed options does trigger the non-zero exit when missing (remaining
conjuncts). -/
theorem claim_C5 :
    missingRequired
      { s3Bucket := some "b", s3Path := some "p", localPath := some "l",
        appVersion := none, publicUrlBase := none,
        sourceMaps := false, force := false } = false ∧
    missingRequired
      { s3Bucket := none, s3Path := some "p", localPath := some "l",
        appVersion := none, publicUrlBase := some "u",
        sourceMaps := false, force := false } = true ∧
    missingRequired
      { s3Bucket := some "b", s3Path := none, localPath := some "l",
        appVersion := none, publicUrlBase := some "u",
        sourceMaps := false, force := false } = true ∧
    missingRequired
      { s3Bucket := some "b", s3Path := some "p", localPath := none,
        appVersion := none, publicUrlBase := some "u",
        sourceMaps := false, force := false } = true := by
  decide

/-- Claim C6: classification of the example listing, for both values of the
source-maps flag. -/
theorem claim_C6 :
    classifyJs ["app.js", "app.js.map", "style.css", "service-worker.js",
        "readme.txt"] false = ["app.js"] ∧
    classifyCss ["app.js", "app.js.map", "style.css", "service-worker.js",
        "readme.txt"] false = ["style.css"] ∧
    classifyJs ["app.js", "app.js.map", "style.css", "service-worker.js",
        "readme.txt"] true = ["app.js", "app.js.map"] ∧
    classifyCss ["app.js", "app.js.map", "style.css", "service-worker.js",
        "readme.txt"] true = ["style.css"] := by
  decide

/-- Claim C7: for every input listing and every value of the source-maps
flag, `service-worker.js` is a member of neither classifier output. -/
theorem claim_C7 (files : List String) (sourceMaps : Bool) :
    "service-worker.js" ∉ classifyJs files sourceMaps ∧
    "service-worker.js" ∉ classifyCss files sourceMaps := by
  constructor
  · intro hmem
    have h2 := (List.mem_filter.mp hmem).2
    simp at h2
  · intro hmem
    have h2 := (List.mem_filter.mp hmem).2
    have e1 : endsWith "service-worker.js" ".css" = false := by decide
    have e2 : endsWith "service-worker.js" ".css.map" = false := by decide
    simp [e1, e2] at h2

/-- Claim C8: a run whose local artifact directory contains only `.css`
files terminates with a non-zero status (either `process.exit(1)` or the
crash path) and issues no upload. -/
theorem claim_C8 (cfg : Config) (env : Env) (files : List String)
    (hdir : env.dirListing = some files)
    (hcss : ∀ f ∈ files, endsWith f ".css" = true) :
    ((publish cfg env).outcome = Outcome.exited 1 ∨
      (publish cfg env).outcome = Outcome.crashed) ∧
    (publish cfg env).uploads = [] := by
  have hjsnil : classifyJs files cfg.sourceMaps = [] := classifyJs_eq_nil_of_all_css hcss
  by_cases h1 : (pathExists env.storeKeys (cfg.s3Path ++ "/" ++ cfg.version)
      && !cfg.force) = true
  · exact ⟨Or.inl (by simp [publish, h1]), by simp [publish, h1]⟩
  · have h1' : (pathExists env.storeKeys (cfg.s3Path ++ "/" ++ cfg.version)
        && !cfg.force) = false := by
      simpa using h1
    cases hb : env.buildOk with
    | false =>
      exact ⟨Or.inr (by simp [publish, h1', hb]), by simp [publish, h1', hb]⟩
    | true =>
      exact ⟨Or.inl (by simp [publish, h1', hb, hdir, hjsnil]),
        by simp [publish, h1', hb, hdir, hjsnil]⟩

/-- Witness for C8: a directory holding only `style.css`. -/
theorem claim_C8_witness :
    ((publish cfgC8 envC8).outcome = Outcome.exited 1 ∨
      (publish cfgC8 envC8).outcome = Outcome.crashed) ∧
    (publish cfgC8 envC8).uploads = [] :=
  claim_C8 cfgC8 envC8 ["style.css"] rfl (by decide)

/-- Claim C9: the pre-publish existence check is a plain string-prefix test
on object keys: with force unset, the run is aborted (exit 1, no build, no
uploads) whenever some stored key begins with `s3Path ++ "/" ++ version` —
even when that key belongs to a longer version string. -/
theorem claim_C9 (cfg : Config) (env : Env)
    (hf : cfg.force = false)
    (hk : ∃ k ∈ env.storeKeys,
        isPrefixOfL (cfg.s3Path ++ "/" ++ cfg.version).data k.data = true) :
    pathExists env.storeKeys (cfg.s3Path ++ "/" ++ cfg.version) = true ∧
    (publish cfg env).outcome = Outcome.exited 1 ∧
    (publish cfg env).buildInvoked = false ∧
    (publish cfg env).uploads = [] := by
  have hex := (pathExists_iff env.storeKeys (cfg.s3Path ++ "/" ++ cfg.version)).mpr hk
  refine ⟨hex, ?_, ?_, ?_⟩ <;> simp [publish, hex, hf]

/-- Witness for C9: with only `assets/1.2.3/main.js` stored, publishing
version `1.2` aborts although no key lies under `assets/1.2/`. -/
theorem claim_C9_witness :
    (∀ k ∈ envC9.storeKeys,
        isPrefixOfL (String.data "assets/1.2/") k.data = false) ∧
    (publish cfgC9 envC9).outcome = Outcome.exited 1 :=
  ⟨by decide,
    (claim_C9 cfgC9 envC9 rfl ⟨"assets/1.2.3/main.js", by decide, by decide⟩).2.1⟩

/-- Claim C10: every successful run reports as final URL the normalized
concatenation of the public URL base, the version path and the fixed
filename `main.js`; the reported URL does not depend on which artifacts
were classified or uploaded. -/
theorem claim_C10 (cfg : Config) (env : Env) (url : String)
    (h : (publish cfg env).outcome = Outcome.completed url) :
    url = deslashUrl (cfg.publicUrlBase ++ "/" ++ (cfg.s3Path ++ "/" ++ cfg.version)
        ++ "/main.js") := by
  by_cases h1 : (pathExists env.storeKeys (cfg.s3Path ++ "/" ++ cfg.version)
      && !cfg.force) = true
  · simp [publish, h1] at h
  · have h1' : (pathExists env.storeKeys (cfg.s3Path ++ "/" ++ cfg.version)
        && !cfg.force) = false := by
      simpa using h1
    cases hb : env.buildOk with
    | false => simp [publish, h1', hb] at h
    | true =>
      cases hdir : env.dirListing with
      | none => simp [publish, h1', hb, hdir] at h
      | some files =>
        by_cases hjs : (classifyJs files cfg.sourceMaps).length = 0
        · simp [publish, h1', hb, hdir, hjs] at h
        · by_cases hall : (uploadTasks cfg files).all (fun t => env.uploadOk t.key) = true
          · simp [publish, h1', hb, hdir, hjs, hall] at h
            exact h.symm
          · have hall' : (uploadTasks cfg files).all (fun t => env.uploadOk t.key) = false := by
              simpa using hall
            simp [publish, h1', hb, hdir, hjs, hall'] at h

/-- Witness for C10: a successful run that classified and uploaded only
`app.js` — no `main.js` among the artifacts — still reports the `main.js`
URL. -/
theorem claim_C10_witness :
    ("main.js" ∉ (["app.js"] : List String)) ∧
    "https://cdn.example/assets/1.0.0/main.js"
      = deslashUrl (cfgC10.publicUrlBase ++ "/"
          ++ (cfgC10.s3Path ++ "/" ++ cfgC10.version) ++ "/main.js") :=
  ⟨by decide,
    claim_C10 cfgC10 envC10 "https://cdn.example/assets/1.0.0/main.js" (by decide)⟩
